import Mathlib

/-!
Verification of the insight-processing core of the ci-app repository
(`src/App.tsx`): severity classification (`inferSeverity`), battle-card
derivation (`toBattleCard`), filtering (`filtered`), digest composition
(`markdown`) and curation (`curate`), embedded shallowly in Lean.

JavaScript specifics are modelled explicitly:
* `new Date(s).getTime()` is an abstract parameter
  `parseDate : String → Option Int` (`none` = `NaN` for unparseable input);
* the `-Infinity` / `Infinity` / `NaN` arithmetic used by the date-range
  check is captured by `JSNum` with JS comparison semantics
  (every comparison against `NaN` is false);
* `toLocaleString` date formatting is an abstract parameter
  `fmt : String → String`;
* `Array.prototype.join`, `String.prototype.includes` and
  `String.prototype.toLowerCase` are `joinWith`, `strContains`, `lowerStr`.
-/

namespace CIApp

/-! ### String primitives -/

/-- `hasPre pat l`: `pat` occurs at the very front of `l`. -/
def hasPre : List Char → List Char → Bool
  | [], _ => true
  | _ :: _, [] => false
  | a :: as, b :: bs => a == b && hasPre as bs

/-- `hasSub pat l`: `pat` occurs contiguously somewhere in `l`
(JS `String.prototype.includes`). -/
def hasSub (pat : List Char) : List Char → Bool
  | [] => hasPre pat []
  | c :: rest => hasPre pat (c :: rest) || hasSub pat rest

/-- `strContains s sub`: JS `s.includes(sub)`. -/
def strContains (s sub : String) : Bool := hasSub sub.data s.data

/-- JS `String.prototype.toLowerCase` (ASCII model). -/
def lowerStr (s : String) : String := ⟨s.data.map Char.toLower⟩

/-- JS `String.prototype.trim`: strip leading and trailing whitespace. -/
def trimStr (s : String) : String :=
  ⟨((s.data.dropWhile Char.isWhitespace).reverse.dropWhile Char.isWhitespace).reverse⟩

/-- JS `Array.prototype.join(sep)`. -/
def joinWith (sep : String) : List String → String
  | [] => ""
  | [x] => x
  | x :: y :: rest => x ++ sep ++ joinWith sep (y :: rest)

/-! ### JS number comparisons for the date-range check -/

/-- The values `new Date(x).getTime()`, `-Infinity` and `Infinity` can take
in the filter: a finite instant, the two infinities, or `NaN`. -/
inductive JSNum where
  | nan : JSNum
  | negInf : JSNum
  | posInf : JSNum
  | fin : Int → JSNum
deriving DecidableEq, Repr

/-- JS `<=` on `JSNum`: any comparison involving `NaN` is false. -/
def JSNum.le : JSNum → JSNum → Bool
  | .nan, _ => false
  | _, .nan => false
  | .negInf, _ => true
  | _, .posInf => true
  | .posInf, _ => false
  | .fin _, .negInf => false
  | .fin a, .fin b => a ≤ b

/-- `new Date(s).getTime()` under an abstract parse function. -/
def ofParse : Option Int → JSNum
  | none => .nan
  | some n => .fin n

/-! ### Data model -/

/-- One ingested competitor-intelligence record (§3 of the spec). -/
structure Insight where
  id : String
  competitor : String
  title : String
  summary : String
  sourceName : String
  sourceUrl : String
  date : String
  tags : List String
deriving DecidableEq, Repr

/-- The derived counter-messaging artifact (§3 of the spec). -/
structure BattleCard where
  headline : String
  impact : String
  proof : String
  counters : List String
  link : String
  tags : List String
deriving DecidableEq, Repr

/-! ### Severity classifier (`inferSeverity`, App.tsx lines 21-26) -/

/-- `inferSeverity` from App.tsx: lowercase the space-joined tags and test
the two regexes `/pricing|price|bundle/` and
`/ai|e-bidding|e-bidding|integration/` (the duplicate alternative is kept
as in the source). -/
def inferSeverity (tags : List String) : String :=
  let t := lowerStr (joinWith " " tags)
  if strContains t "pricing" || strContains t "price" || strContains t "bundle" then
    "critical"
  else if strContains t "ai" || strContains t "e-bidding" || strContains t "e-bidding"
      || strContains t "integration" then
    "watch"
  else
    "info"

/-- Modelled from the spec (§4.1): case-insensitively join tags into a blob
and evaluate the ordered rules, first match wins, without the duplicated
alternative. Used only to compare against `inferSeverity`. -/
def classifySpec (tags : List String) : String :=
  let t := lowerStr (joinWith " " tags)
  if strContains t "pricing" || strContains t "price" || strContains t "bundle" then
    "critical"
  else if strContains t "ai" || strContains t "e-bidding" || strContains t "integration" then
    "watch"
  else
    "info"

/-! ### Battle card generator (`toBattleCard`, App.tsx lines 28-48) -/

def baseCounter1 : String := "Emphasize time-to-value with prebuilt scorecards & fast onboarding."
def baseCounter2 : String := "Show integration depth (RFP/award, APIs, export) with demos."
def baseCounter3 : String := "Publish TCO story vs. bundle pricing."
def aiCounter : String := "Demo AI explainability and guardrails for regulated buyers."
def pricingCounter : String := "Offer side-by-side TCO with transparent tiers."
def ebidCounter : String := "Position eligibility checks at invite/award as buyer efficiency."
def defaultImpact : String := "Raises buyer expectations for analytics clarity and workflow fit."
def aiImpact : String := "Shifts narrative to AI-assist; raises bar for search and self-serve answers."

/-- The `base` object literal of `toBattleCard` before any augmentation rule
fires. `fmt` models `(d : string) => new Date(d).toLocaleString()`. -/
def baseCard (fmt : String → String) (insight : Insight) : BattleCard :=
  { headline := insight.competitor ++ ": " ++ insight.title
    impact := defaultImpact
    proof := "Source: " ++ insight.sourceName ++ " • " ++ fmt insight.date
    counters := [baseCounter1, baseCounter2, baseCounter3]
    link := insight.sourceUrl
    tags := insight.tags }

/-- `toBattleCard` from App.tsx: build the base card, then apply the AI,
Pricing and E-bidding rules in that order, each `unshift` prepending its
counter-message. -/
def toBattleCard (fmt : String → String) (insight : Insight) : BattleCard :=
  let base := baseCard fmt insight
  let b1 :=
    if insight.tags.contains "AI" then
      { base with impact := aiImpact, counters := aiCounter :: base.counters }
    else base
  let b2 :=
    if insight.tags.contains "Pricing" then
      { b1 with counters := pricingCounter :: b1.counters }
    else b1
  let b3 :=
    if insight.tags.contains "E-bidding" then
      { b2 with counters := ebidCounter :: b2.counters }
    else b2
  b3

/-! ### Filter engine (`filtered`, App.tsx lines 103-114) -/

/-- The per-record predicate of the `insights.filter` call in App.tsx, with
`start`, `end` and `q` precomputed exactly as in the source. -/
def filterPred (parseDate : String → Option Int)
    (query competitor fromS toS : String) (i : Insight) : Bool :=
  let start := if fromS ≠ "" then ofParse (parseDate fromS) else JSNum.negInf
  let stop := if toS ≠ "" then ofParse (parseDate toS) else JSNum.posInf
  let q := lowerStr (trimStr query)
  let t := ofParse (parseDate i.date)
  let inRange := JSNum.le start t && JSNum.le t stop
  let byComp := competitor == "All" || i.competitor == competitor
  let byQuery := q == "" || strContains (lowerStr i.title) q
      || strContains (lowerStr i.summary) q
      || strContains (lowerStr (joinWith " " i.tags)) q
  inRange && byComp && byQuery

/-- `filtered` from App.tsx: `insights.filter` with the predicate above. -/
def filtered (parseDate : String → Option Int) (insights : List Insight)
    (query competitor fromS toS : String) : List Insight :=
  insights.filter (filterPred parseDate query competitor fromS toS)

/-- Modelled from the spec (§4.2): the per-record predicate in the spec's
own terms — date within the inclusive `[fromDate, toDate]` range with an
absent (empty) bound unbounded, competitor `"All"` or exact match, query
empty (always passes) or a case-insensitive substring of title, summary or
space-joined tags. The spec says nothing about trimming the query, so none
is applied here. Used only to compare against `filterPred`. -/
def specPred (parseDate : String → Option Int)
    (query competitor fromS toS : String) (i : Insight) : Bool :=
  let dateOk :=
    match parseDate i.date with
    | none => false
    | some d =>
      (match (if fromS = "" then none else parseDate fromS : Option Int) with
       | none => true
       | some f => decide (f ≤ d)) &&
      (match (if toS = "" then none else parseDate toS : Option Int) with
       | none => true
       | some g => decide (d ≤ g))
  let q := lowerStr query
  let byComp := competitor == "All" || i.competitor == competitor
  let byQuery := q == "" || strContains (lowerStr i.title) q
      || strContains (lowerStr i.summary) q
      || strContains (lowerStr (joinWith " " i.tags)) q
  dateOk && byComp && byQuery

/-- The spec predicate as amended after the counterexample below: identical
to `specPred` except that the query is first trimmed of leading/trailing
whitespace, as the code does before deciding emptiness and matching. -/
def specPredTrim (parseDate : String → Option Int)
    (query competitor fromS toS : String) (i : Insight) : Bool :=
  specPred parseDate (trimStr query) competitor fromS toS i

/-! ### Digest composer (`markdown`, App.tsx lines 117-120) -/

/-- One digest item of the `markdown` template literal. -/
def itemLine (fmt : String → String) (i : Insight) : String :=
  "- **" ++ i.competitor ++ "** — " ++ i.title ++ "  \n  " ++ i.summary
    ++ "  \n  Source: [" ++ i.sourceName ++ "](" ++ i.sourceUrl ++ ") • " ++ fmt i.date

/-- `markdown` from App.tsx: heading with the composition time `now`, then
the first 8 filtered insights rendered and joined by a blank line. -/
def markdown (fmt : String → String) (now : String) (filteredList : List Insight) : String :=
  let items := (filteredList.take 8).map (itemLine fmt)
  "# Competitor & Market Update\n\n" ++ now ++ "\n\n" ++ joinWith "\n\n" items ++ "\n"

/-- Modelled from the spec (§4.4): render the blocks one by one, a blank
line before every block after the first. Used only to compare against
`markdown`. -/
def specBlocks (fmt : String → String) : List Insight → String
  | [] => ""
  | i :: rest => itemLine fmt i ++ (if rest = [] then "" else "\n\n" ++ specBlocks fmt rest)

/-! ### Curation (`curate`, App.tsx line 125) -/

/-- A curated battle card: `{ id: i.id, competitor: i.competitor,
...toBattleCard(i) }`. -/
structure CuratedCard where
  id : String
  competitor : String
  headline : String
  impact : String
  proof : String
  counters : List String
  link : String
  tags : List String
deriving DecidableEq, Repr

/-- The card object built by `curate` for one insight. -/
def mkCurated (fmt : String → String) (i : Insight) : CuratedCard :=
  let b := toBattleCard fmt i
  { id := i.id, competitor := i.competitor, headline := b.headline,
    impact := b.impact, proof := b.proof, counters := b.counters,
    link := b.link, tags := b.tags }

/-- `curate` from App.tsx:
`setCurated(prev => [c, ...prev.filter(x => x.id !== c.id)])`. -/
def curate (fmt : String → String) (prev : List CuratedCard) (i : Insight) : List CuratedCard :=
  let c := mkCurated fmt i
  c :: prev.filter (fun x => x.id != c.id)

/-! ### Concrete instances used by witnesses and counterexamples -/

/-- A concrete date parser: only the string `"d1"` parses (to instant `0`). -/
def parseDate0 (s : String) : Option Int := if s = "d1" then some 0 else none

/-- A concrete valid insight whose date parses under `parseDate0`. -/
def ins0 : Insight :=
  { id := "i1", competitor := "Acme", title := "T", summary := "S",
    sourceName := "N", sourceUrl := "U", date := "d1", tags := ["Survey"] }

/-- `ins0` re-curated with a different title (same id). -/
def ins0b : Insight := { ins0 with title := "T second version" }

/-- `ins0` with a different id and summary but the same card-relevant fields. -/
def ins0c : Insight := { ins0 with id := "i2", summary := "different summary" }

/-- An insight carrying all three augmentation tags. -/
def insAll : Insight := { ins0 with tags := ["AI", "Pricing", "E-bidding"] }

/-- An insight carrying the augmentation tag words only in other casings. -/
def insLower : Insight := { ins0 with tags := ["ai", "PRICING", "E-Bidding"] }

/-! ### Substring and join lemmas -/

theorem hasSub_nil_pat (l : List Char) : hasSub [] l = true := by
  cases l <;> rfl

theorem hasPre_nil_eq (pat : List Char) (h : hasPre pat [] = true) : pat = [] := by
  cases pat with
  | nil => rfl
  | cons a as => simp [hasPre] at h

theorem hasPre_append (pat : List Char) :
    ∀ l r : List Char, hasPre pat l = true → hasPre pat (l ++ r) = true := by
  induction pat with
  | nil => intro l r _; rfl
  | cons a as ih =>
    intro l r h
    cases l with
    | nil => simp [hasPre] at h
    | cons b bs =>
      rw [List.cons_append]
      rw [hasPre] at h ⊢
      rcases Bool.and_eq_true _ _ |>.mp h with ⟨h1, h2⟩
      rw [h1, ih bs r h2]
      rfl

theorem hasSub_append_right (pat : List Char) :
    ∀ l r : List Char, hasSub pat l = true → hasSub pat (l ++ r) = true := by
  intro l
  induction l with
  | nil =>
    intro r h
    rw [hasSub] at h
    rw [hasPre_nil_eq pat h]
    exact hasSub_nil_pat _
  | cons c cs ih =>
    intro r h
    rw [List.cons_append, hasSub]
    rw [hasSub] at h
    rcases Bool.or_eq_true _ _ |>.mp h with h1 | h2
    · rw [show c :: (cs ++ r) = (c :: cs) ++ r from rfl, hasPre_append pat (c :: cs) r h1]
      rfl
    · rw [ih r h2, Bool.or_true]

theorem hasSub_append_left (pat : List Char) :
    ∀ l r : List Char, hasSub pat r = true → hasSub pat (l ++ r) = true := by
  intro l
  induction l with
  | nil => intro r h; exact h
  | cons c cs ih =>
    intro r h
    rw [List.cons_append, hasSub, ih r h, Bool.or_true]

theorem hasSub_of_middle (pat s m t : List Char) (h : hasSub pat m = true) :
    hasSub pat (s ++ m ++ t) = true := by
  rw [List.append_assoc]
  exact hasSub_append_left pat s (m ++ t) (hasSub_append_right pat m t h)

theorem joinWith_mem_decomp (sep : String) (tags : List String) (tag : String)
    (h : tag ∈ tags) : ∃ s t, (joinWith sep tags).data = s ++ tag.data ++ t := by
  induction tags with
  | nil => cases h
  | cons x rest ih =>
    cases rest with
    | nil =>
      rw [List.mem_singleton] at h
      exact ⟨[], [], by rw [h, joinWith]; simp⟩
    | cons y rest' =>
      rcases List.mem_cons.mp h with h1 | h2
      · refine ⟨[], (sep ++ joinWith sep (y :: rest')).data, ?_⟩
        rw [joinWith, h1]
        simp [String.data_append]
      · obtain ⟨s, t, hd⟩ := ih h2
        refine ⟨x.data ++ sep.data ++ s, t, ?_⟩
        rw [joinWith]
        simp [String.data_append, hd]

theorem lowerStr_data (s : String) : (lowerStr s).data = s.data.map Char.toLower := rfl

/-- A tag that case-insensitively contains a (lowercase) pattern makes the
lowercased space-joined blob contain that pattern. -/
theorem hasSub_lower_join (tags : List String) (tag : String) (h : tag ∈ tags)
    (pat : List Char) (hp : hasSub pat (lowerStr tag).data = true) :
    hasSub pat (lowerStr (joinWith " " tags)).data = true := by
  obtain ⟨s, t, hd⟩ := joinWith_mem_decomp " " tags tag h
  rw [lowerStr_data, hd]
  rw [List.append_assoc, List.map_append, List.map_append]
  rw [← List.append_assoc]
  exact hasSub_of_middle pat _ _ _ (by rw [← lowerStr_data]; exact hp)

/-! ### C2: severity classifier -/

/-- C2: `inferSeverity` case-insensitively joins the tags into one blob and
applies ordered first-match-wins rules (pricing/price/bundle → critical,
else ai/e-bidding/integration → watch, else info), coinciding with the
spec's rule list; in particular any tag containing "pricing" in any case
and any position yields `critical`. -/
theorem C2_classifier_first_match (tags : List String) :
    inferSeverity tags = classifySpec tags
    ∧ (∀ tag, tag ∈ tags → strContains (lowerStr tag) "pricing" = true →
        inferSeverity tags = "critical") := by
  constructor
  · unfold inferSeverity classifySpec
    simp only [Bool.or_self_right]
  · intro tag hmem hsub
    have hblob : strContains (lowerStr (joinWith " " tags)) "pricing" = true :=
      hasSub_lower_join tags tag hmem _ hsub
    unfold inferSeverity
    rw [strContains] at hblob
    simp only [strContains, hblob, Bool.true_or, if_pos]

/-- Concrete check of C2 at a mixed-case mid-tag occurrence of "pricing". -/
theorem C2_classifier_first_match_witness :
    "xPRICINGy" ∈ ["Updates", "xPRICINGy"]
    ∧ strContains (lowerStr "xPRICINGy") "pricing" = true
    ∧ inferSeverity ["Updates", "xPRICINGy"] = "critical" :=
  ⟨by decide, by decide,
    (C2_classifier_first_match ["Updates", "xPRICINGy"]).2 "xPRICINGy" (by decide) (by decide)⟩

/-! ### Filter lemmas -/

theorem JSNum.le_nan_right (x : JSNum) : JSNum.le x .nan = false := by
  cases x <;> rfl

theorem JSNum.nan_le_left (x : JSNum) : JSNum.le .nan x = false := by
  cases x <;> rfl

/-- Under well-formed bounds (each empty or parseable) the per-record
predicate of the source coincides with the amended (query-trimming) spec
predicate. -/
theorem filterPred_eq_specPredTrim (parseDate : String → Option Int)
    (query competitor fromS toS : String) (i : Insight)
    (hf : fromS = "" ∨ ∃ v, parseDate fromS = some v)
    (ht : toS = "" ∨ ∃ v, parseDate toS = some v) :
    filterPred parseDate query competitor fromS toS i
      = specPredTrim parseDate query competitor fromS toS i := by
  have hdate :
      (JSNum.le (if fromS ≠ "" then ofParse (parseDate fromS) else JSNum.negInf)
          (ofParse (parseDate i.date))
        && JSNum.le (ofParse (parseDate i.date))
          (if toS ≠ "" then ofParse (parseDate toS) else JSNum.posInf))
      = (match parseDate i.date with
         | none => false
         | some d =>
           (match (if fromS = "" then none else parseDate fromS : Option Int) with
            | none => true
            | some f => decide (f ≤ d)) &&
           (match (if toS = "" then none else parseDate toS : Option Int) with
            | none => true
            | some g => decide (d ≤ g))) := by
    cases hd : parseDate i.date with
    | none =>
      simp [ofParse, JSNum.nan_le_left]
    | some d =>
      have h1 : JSNum.le (if fromS ≠ "" then ofParse (parseDate fromS) else JSNum.negInf)
            (ofParse (some d))
          = (match (if fromS = "" then none else parseDate fromS : Option Int) with
             | none => true
             | some f => decide (f ≤ d)) := by
        by_cases hfe : fromS = ""
        · simp [hfe, ofParse, JSNum.le]
        · obtain ⟨v, hv⟩ := hf.resolve_left hfe
          simp [hfe, hv, ofParse, JSNum.le]
      have h2 : JSNum.le (ofParse (some d))
            (if toS ≠ "" then ofParse (parseDate toS) else JSNum.posInf)
          = (match (if toS = "" then none else parseDate toS : Option Int) with
             | none => true
             | some g => decide (d ≤ g)) := by
        by_cases hte : toS = ""
        · simp [hte, ofParse, JSNum.le]
        · obtain ⟨v, hv⟩ := ht.resolve_left hte
          simp [hte, hv, ofParse, JSNum.le]
      rw [h1, h2]
  unfold filterPred specPredTrim specPred
  simp only []
  rw [hdate]

/-! ### C3: filter contract (corrected) -/

/-- C3 as stated is false on the code: the source trims the query before
deciding emptiness and matching, while the claim's predicate does not. The
padded query " survey " matches the tag "Survey" of `ins0` in the code but
fails the claim's untrimmed substring predicate, and the whitespace-only
query "  " passes everything in the code but the claim's predicate (a
non-empty query no field contains) rejects every record. -/
theorem C3_query_trim_counterexample :
    filtered parseDate0 [ins0] " survey " "All" "" "" = [ins0]
    ∧ [ins0].filter (specPred parseDate0 " survey " "All" "" "") = []
    ∧ filtered parseDate0 [ins0] " survey " "All" "" ""
        ≠ [ins0].filter (specPred parseDate0 " survey " "All" "" "")
    ∧ filtered parseDate0 [ins0] "  " "All" "" "" = [ins0]
    ∧ [ins0].filter (specPred parseDate0 "  " "All" "" "") = [] := by decide

/-- C3 amended: for every insight sequence and well-formed parameters,
`filtered` is the order-preserving subsequence of exactly the records
satisfying the spec's three predicates with the query first trimmed of
leading/trailing whitespace — the trimmed query empty (always passes) or a
case-insensitive substring of title, summary, or space-joined tags;
inclusive date range with absent bounds unbounded; competitor "All" or
exact match. -/
theorem C3_filter_trimmed_contract (parseDate : String → Option Int)
    (insights : List Insight) (query competitor fromS toS : String)
    (hf : fromS = "" ∨ ∃ v, parseDate fromS = some v)
    (ht : toS = "" ∨ ∃ v, parseDate toS = some v) :
    filtered parseDate insights query competitor fromS toS
      = insights.filter (specPredTrim parseDate query competitor fromS toS)
    ∧ (filtered parseDate insights query competitor fromS toS).Sublist insights := by
  constructor
  · unfold filtered
    exact List.filter_congr fun i _ =>
      filterPred_eq_specPredTrim parseDate query competitor fromS toS i hf ht
  · exact List.filter_sublist _

/-- Concrete check of the amended C3: the padded lowercase query " survey "
matches the capitalized tag "Survey" of `ins0` once trimmed, with an absent
lower bound and a parseable upper bound. -/
theorem C3_filter_trimmed_contract_witness :
    filtered parseDate0 [ins0] " survey " "All" "" "d1"
      = [ins0].filter (specPredTrim parseDate0 " survey " "All" "" "d1")
    ∧ (filtered parseDate0 [ins0] " survey " "All" "" "d1").Sublist [ins0] :=
  C3_filter_trimmed_contract parseDate0 [ins0] " survey " "All" "" "d1"
    (Or.inl rfl) (Or.inr ⟨0, by decide⟩)

/-! ### C1: malformed date bounds (corrected) -/

/-- C1 as stated is false: with the concrete parser `parseDate0`, the
malformed non-empty bound "xx" makes the filter return the empty list,
which differs from the result with that bound omitted. -/
theorem C1_malformed_bound_counterexample :
    ("xx" : String) ≠ "" ∧ parseDate0 "xx" = none
    ∧ filtered parseDate0 [ins0] "" "All" "xx" "" = []
    ∧ filtered parseDate0 [ins0] "" "All" "xx" ""
        ≠ filtered parseDate0 [ins0] "" "All" "" "" := by decide

/-- C1 amended: a malformed (non-empty, unparseable) `fromDate` or `toDate`
is not treated as absent — its `NaN` instant makes the date-range check
false for every record, so the filter matches nothing. -/
theorem C1_malformed_bound_excludes_all (parseDate : String → Option Int)
    (insights : List Insight) (query competitor fromS toS : String) :
    (fromS ≠ "" → parseDate fromS = none →
      filtered parseDate insights query competitor fromS toS = [])
    ∧ (toS ≠ "" → parseDate toS = none →
      filtered parseDate insights query competitor fromS toS = []) := by
  constructor
  · intro hne hparse
    unfold filtered
    rw [List.filter_eq_nil_iff]
    intro i _
    unfold filterPred
    simp [hne, hparse, ofParse, JSNum.nan_le_left]
  · intro hne hparse
    unfold filtered
    rw [List.filter_eq_nil_iff]
    intro i _
    unfold filterPred
    simp [hne, hparse, ofParse, JSNum.le_nan_right]

/-- Concrete check of the amended C1 at the malformed bound "xx". -/
theorem C1_malformed_bound_excludes_all_witness :
    ("xx" : String) ≠ "" ∧ parseDate0 "xx" = none
    ∧ filtered parseDate0 [ins0] "" "All" "xx" "" = [] :=
  ⟨by decide, by decide,
    (C1_malformed_bound_excludes_all parseDate0 [ins0] "" "All" "xx" "").1
      (by decide) (by decide)⟩

/-! ### C6: filter idempotence -/

/-- C6: for every parameterization, filtering an already-filtered result
with the same parameters returns the same sequence. -/
theorem C6_filter_idempotent (parseDate : String → Option Int)
    (insights : List Insight) (query competitor fromS toS : String) :
    filtered parseDate (filtered parseDate insights query competitor fromS toS)
        query competitor fromS toS
      = filtered parseDate insights query competitor fromS toS := by
  unfold filtered
  rw [List.filter_eq_self]
  intro a ha
  exact (List.mem_filter.mp ha).2

/-! ### C4 / C10 / C7: battle card generator -/

/-- C4: when the tags contain "AI" and "Pricing", the augmentation rules
fire in the fixed order AI, Pricing, E-bidding, each prepending; so with
"E-bidding" also present the counters front-to-back are the E-bidding,
Pricing and AI messages followed by the three base messages, and without
"E-bidding" they start with the Pricing and AI messages. -/
theorem C4_augmentation_prepend_order (fmt : String → String) (i : Insight)
    (hA : "AI" ∈ i.tags) (hP : "Pricing" ∈ i.tags) :
    ("E-bidding" ∈ i.tags →
      (toBattleCard fmt i).counters
        = [ebidCounter, pricingCounter, aiCounter,
           baseCounter1, baseCounter2, baseCounter3])
    ∧ ("E-bidding" ∉ i.tags →
      (toBattleCard fmt i).counters
        = [pricingCounter, aiCounter, baseCounter1, baseCounter2, baseCounter3]) := by
  constructor
  · intro hE
    simp [toBattleCard, baseCard, List.contains, List.elem_iff, hA, hP, hE]
  · intro hE
    simp [toBattleCard, baseCard, List.contains, List.elem_iff, hA, hP, hE]

/-- Concrete check of C4 with all three augmentation tags present. -/
theorem C4_augmentation_prepend_order_witness :
    (toBattleCard (fun s => s) insAll).counters
      = [ebidCounter, pricingCounter, aiCounter,
         baseCounter1, baseCounter2, baseCounter3] :=
  (C4_augmentation_prepend_order (fun s => s) insAll (by decide) (by decide)).1 (by decide)

/-- C10: battle-card augmentation matches tags by case-sensitive exact
element membership: if none of the exact strings "AI", "Pricing",
"E-bidding" is an element of the tags, no rule fires and the result is the
unmodified base card — default impact and exactly the three base
counters. -/
theorem C10_augmentation_exact_match_only (fmt : String → String) (i : Insight)
    (h1 : "AI" ∉ i.tags) (h2 : "Pricing" ∉ i.tags) (h3 : "E-bidding" ∉ i.tags) :
    toBattleCard fmt i = baseCard fmt i
    ∧ (toBattleCard fmt i).impact = defaultImpact
    ∧ (toBattleCard fmt i).counters = [baseCounter1, baseCounter2, baseCounter3] := by
  have hb : toBattleCard fmt i = baseCard fmt i := by
    simp [toBattleCard, List.contains, List.elem_iff, h1, h2, h3]
  exact ⟨hb, by rw [hb]; rfl, by rw [hb]; rfl⟩

/-- Concrete check of C10: the augmentation words in other casings
("ai", "PRICING", "E-Bidding") leave the base card untouched, even though
the classifier would still react to them. -/
theorem C10_augmentation_exact_match_only_witness :
    toBattleCard (fun s => s) insLower = baseCard (fun s => s) insLower
    ∧ (toBattleCard (fun s => s) insLower).impact = defaultImpact
    ∧ (toBattleCard (fun s => s) insLower).counters
        = [baseCounter1, baseCounter2, baseCounter3] :=
  C10_augmentation_exact_match_only (fun s => s) insLower
    (by decide) (by decide) (by decide)

/-- C7: `toBattleCard` is a total Lean function and is deterministic: it
reads only competitor, title, sourceName, date, sourceUrl and tags, so two
insights agreeing on those fields (even with different id or summary)
yield structurally identical cards. -/
theorem C7_generate_deterministic (fmt : String → String) (i j : Insight)
    (hc : i.competitor = j.competitor) (ht : i.title = j.title)
    (hs : i.sourceName = j.sourceName) (hd : i.date = j.date)
    (hu : i.sourceUrl = j.sourceUrl) (htg : i.tags = j.tags) :
    toBattleCard fmt i = toBattleCard fmt j := by
  simp only [toBattleCard, baseCard, hc, ht, hs, hd, hu, htg]

/-- Concrete check of C7: `ins0c` differs from `ins0` only in id and
summary, which the generator does not read. -/
theorem C7_generate_deterministic_witness :
    toBattleCard (fun s => s) ins0 = toBattleCard (fun s => s) ins0c :=
  C7_generate_deterministic (fun s => s) ins0 ins0c rfl rfl rfl rfl rfl rfl

/-! ### C5: curation replace-by-id -/

/-- C5: `curate` keeps at most one card per insight id, and curating the
same id twice keeps exactly one card for that id — the second (latest)
one. -/
theorem C5_curate_replaces_by_id (fmt : String → String)
    (prev : List CuratedCard) (i i' : Insight) (hid : i'.id = i.id)
    (hinv : ∀ s, (prev.countP fun c => c.id == s) ≤ 1) :
    (∀ s, ((curate fmt prev i).countP fun c => c.id == s) ≤ 1)
    ∧ (curate fmt (curate fmt prev i) i').filter (fun c => c.id == i.id)
        = [mkCurated fmt i']
    ∧ ((curate fmt (curate fmt prev i) i').countP fun c => c.id == i.id) = 1 := by
  have hfilter : ∀ (l : List CuratedCard) (j : Insight),
      (curate fmt l j).filter (fun c => c.id == j.id) = [mkCurated fmt j] := by
    intro l j
    unfold curate
    rw [List.filter_cons]
    have hj : ((mkCurated fmt j).id == j.id) = true := beq_iff_eq.mpr rfl
    rw [if_pos hj]
    rw [List.filter_filter]
    have hnil : (l.filter fun a => (a.id == j.id) && (a.id != (mkCurated fmt j).id)) = [] := by
      rw [List.filter_eq_nil_iff]
      intro a _
      by_cases hae : a.id = j.id
      · simp [hae, mkCurated]
      · simp [beq_eq_false_iff_ne.mpr hae]
    rw [hnil]
  have hsecond : (curate fmt (curate fmt prev i) i').filter (fun c => c.id == i.id)
      = [mkCurated fmt i'] := by
    rw [← hid]
    exact hfilter (curate fmt prev i) i'
  refine ⟨?_, hsecond, ?_⟩
  · intro s
    unfold curate
    rw [List.countP_cons]
    by_cases hs : i.id = s
    · have h0 : ((prev.filter fun x => x.id != (mkCurated fmt i).id).countP
          fun c => c.id == s) = 0 := by
        rw [List.countP_eq_zero]
        intro a ha
        have hane : (a.id != (mkCurated fmt i).id) = true := (List.mem_filter.mp ha).2
        have : a.id ≠ i.id := by
          intro he
          rw [bne_iff_ne] at hane
          exact hane he
        simp [beq_eq_false_iff_ne.mpr (hs ▸ this)]
      rw [h0]
      have : ((mkCurated fmt i).id == s) = true := beq_iff_eq.mpr (by rw [← hs]; rfl)
      simp [this]
    · have hhead : ((mkCurated fmt i).id == s) = false := beq_eq_false_iff_ne.mpr hs
      rw [hhead]
      simp only [Bool.false_eq_true, if_false, Nat.add_zero]
      calc ((prev.filter fun x => x.id != (mkCurated fmt i).id).countP
              fun c => c.id == s)
          ≤ (prev.countP fun c => c.id == s) :=
            (List.filter_sublist prev).countP_le _
        _ ≤ 1 := hinv s
  · rw [List.countP_eq_length_filter, hsecond]
    rfl

/-- Concrete check of C5: curating `ins0` and then `ins0b` (same id,
different title) keeps exactly the second card. -/
theorem C5_curate_replaces_by_id_witness :
    (∀ s, ((curate (fun s => s) [] ins0).countP fun c => c.id == s) ≤ 1)
    ∧ (curate (fun s => s) (curate (fun s => s) [] ins0) ins0b).filter
        (fun c => c.id == ins0.id) = [mkCurated (fun s => s) ins0b]
    ∧ ((curate (fun s => s) (curate (fun s => s) [] ins0) ins0b).countP
        fun c => c.id == ins0.id) = 1 :=
  C5_curate_replaces_by_id (fun s => s) [] ins0 ins0b rfl
    (fun _ => by simp)

/-! ### C8: digest composer -/

theorem joinWith_map_itemLine (fmt : String → String) (xs : List Insight) :
    joinWith "\n\n" (xs.map (itemLine fmt)) = specBlocks fmt xs := by
  induction xs with
  | nil => rfl
  | cons x rest ih =>
    cases rest with
    | nil => simp [joinWith, specBlocks, String.append_empty]
    | cons y rest' =>
      show (itemLine fmt x ++ "\n\n")
            ++ joinWith "\n\n" (List.map (itemLine fmt) (y :: rest'))
          = itemLine fmt x ++ ("\n\n" ++ specBlocks fmt (y :: rest'))
      rw [ih, String.append_assoc]

/-- C8: the digest is the heading (with the composition time), followed by
one block per insight for exactly the first 8 insights in the given order,
blocks separated by a blank line; an empty input yields the heading with
no item blocks. -/
theorem C8_digest_first_eight (fmt : String → String) (now : String)
    (insights : List Insight) :
    markdown fmt now insights
      = "# Competitor & Market Update\n\n" ++ now ++ "\n\n"
          ++ specBlocks fmt (insights.take 8) ++ "\n"
    ∧ markdown fmt now insights = markdown fmt now (insights.take 8)
    ∧ markdown fmt now []
      = "# Competitor & Market Update\n\n" ++ now ++ "\n\n" ++ "" ++ "\n" := by
  refine ⟨?_, ?_, rfl⟩
  · unfold markdown
    simp only []
    rw [joinWith_map_itemLine]
  · unfold markdown
    rw [List.take_take]
    simp

/-! ### C9: no mutation of ingested insights -/

/-- A store of JS string arrays, addressed by allocation index; models the
heap cells that `toBattleCard` can reach through references. -/
structure Mem where
  arrs : List (List String)
deriving Repr

/-- Read the array at reference `r`. -/
def Mem.get (m : Mem) (r : Nat) : List String := m.arrs.getD r []

/-- Allocate a fresh array (a JS array literal) and return its reference. -/
def Mem.alloc (m : Mem) (v : List String) : Mem × Nat :=
  (⟨m.arrs ++ [v]⟩, m.arrs.length)

/-- Overwrite the array at reference `r`. -/
def Mem.set (m : Mem) (r : Nat) (v : List String) : Mem := ⟨m.arrs.set r v⟩

/-- JS `arr.unshift(x)` through reference `r`. -/
def Mem.unshift (m : Mem) (r : Nat) (x : String) : Mem := m.set r (x :: m.get r)

/-- An ingested insight whose `tags` field is a reference into the store,
as in JS where the array is shared, not copied. -/
structure InsightRef where
  id : String
  competitor : String
  title : String
  summary : String
  sourceName : String
  sourceUrl : String
  date : String
  tagsRef : Nat
deriving Repr

/-- A battle card whose `counters` and `tags` fields are references. -/
structure CardRef where
  headline : String
  impact : String
  proof : String
  countersRef : Nat
  link : String
  tagsRef : Nat
deriving Repr

/-- `toBattleCard` with the JS reference semantics made explicit: the
`counters` array is freshly allocated, the card's `tags` aliases the
insight's array, each augmentation check reads the insight's tags through
its reference, and each `unshift` writes through the card's `counters`
reference. -/
def toBattleCardMem (fmt : String → String) (m : Mem) (i : InsightRef) :
    Mem × CardRef :=
  let a := m.alloc [baseCounter1, baseCounter2, baseCounter3]
  let m0 := a.1
  let cref := a.2
  let base : CardRef :=
    { headline := i.competitor ++ ": " ++ i.title
      impact := defaultImpact
      proof := "Source: " ++ i.sourceName ++ " • " ++ fmt i.date
      countersRef := cref, link := i.sourceUrl, tagsRef := i.tagsRef }
  let s1 : Mem × CardRef :=
    if (m0.get i.tagsRef).contains "AI" then
      (m0.unshift cref aiCounter, { base with impact := aiImpact })
    else (m0, base)
  let m1 := s1.1
  let b1 := s1.2
  let m2 :=
    if (m1.get i.tagsRef).contains "Pricing" then
      m1.unshift b1.countersRef pricingCounter
    else m1
  let m3 :=
    if (m2.get i.tagsRef).contains "E-bidding" then
      m2.unshift b1.countersRef ebidCounter
    else m2
  (m3, b1)

theorem Mem.get_set_ne (m : Mem) (n r : Nat) (v : List String) (h : n ≠ r) :
    (m.set n v).get r = m.get r := by
  unfold Mem.get Mem.set
  rw [List.getD_eq_getElem?_getD, List.getD_eq_getElem?_getD, List.getElem?_set_ne h]

theorem Mem.get_unshift_ne (m : Mem) (n r : Nat) (x : String) (h : n ≠ r) :
    (m.unshift n x).get r = m.get r :=
  Mem.get_set_ne m n r _ h

theorem Mem.get_alloc_lt (m : Mem) (v : List String) (r : Nat)
    (h : r < m.arrs.length) : (m.alloc v).1.get r = m.get r := by
  unfold Mem.get Mem.alloc
  exact List.getD_append _ _ _ _ h

/-- C9: the core never mutates an ingested insight. With reference
semantics explicit, `toBattleCardMem` leaves every pre-existing array —
in particular the insight's `tags` array — exactly as it was (its only
write target is the freshly allocated counters array), and the card's
`tags` is the unmodified original reference; `filtered` returns a
subsequence consisting of the input records themselves. -/
theorem C9_core_no_mutation (fmt : String → String) (m : Mem) (i : InsightRef)
    (r : Nat) (h : r < m.arrs.length)
    (parseDate : String → Option Int) (insights : List Insight)
    (query competitor fromS toS : String) :
    (toBattleCardMem fmt m i).1.get r = m.get r
    ∧ (toBattleCardMem fmt m i).2.tagsRef = i.tagsRef
    ∧ (filtered parseDate insights query competitor fromS toS).Sublist insights := by
  have hne : m.arrs.length ≠ r := Nat.ne_of_gt h
  refine ⟨?_, ?_, List.filter_sublist _⟩
  · unfold toBattleCardMem
    simp only [Mem.alloc]
    split <;> split <;> split <;>
      simp [Mem.get_unshift_ne _ _ _ _ hne,
        show (Mem.mk (m.arrs ++ _)).get r = m.get r from
          Mem.get_alloc_lt m _ r h]
  · unfold toBattleCardMem
    simp only [Mem.alloc]
    split <;> rfl

/-- Concrete check of C9 on a one-array store holding the tags of an
AI-tagged insight. -/
theorem C9_core_no_mutation_witness :
    (toBattleCardMem (fun s => s) ⟨[["AI"]]⟩
        { id := "i1", competitor := "Acme", title := "T", summary := "S",
          sourceName := "N", sourceUrl := "U", date := "d1", tagsRef := 0 }).1.get 0
      = (Mem.mk [["AI"]]).get 0
    ∧ (toBattleCardMem (fun s => s) ⟨[["AI"]]⟩
        { id := "i1", competitor := "Acme", title := "T", summary := "S",
          sourceName := "N", sourceUrl := "U", date := "d1", tagsRef := 0 }).2.tagsRef = 0
    ∧ (filtered parseDate0 [ins0] "" "All" "" "").Sublist [ins0] :=
  C9_core_no_mutation (fun s => s) ⟨[["AI"]]⟩
    { id := "i1", competitor := "Acme", title := "T", summary := "S",
      sourceName := "N", sourceUrl := "U", date := "d1", tagsRef := 0 }
    0 (by decide) parseDate0 [ins0] "" "All" "" ""

end CIApp
